import Mathlib

set_option linter.unnecessarySeqFocus false

/-
Verification of the core backtesting engine of this repository
(backtester.py): position accounting, portfolio valuation, the trading
cost model, the risk gate, and the event loop of BacktestEngine.

The embedding is a faithful shallow translation of the Python source:
real-number arithmetic is modelled with the rationals, Python dictionaries
with optional values, and Python exceptions (ZeroDivisionError from a
float division by zero, ValueError from the precondition checks of
run_backtest) with an explicit Except monad.  The engine is embedded in
its single-instrument configuration (one bare close column, which the
run loop maps to the synthetic symbol named default), which is the
configuration all the examined behaviours exercise; the per-instrument
components (Position, TradingCostModel, RiskManager) are embedded in
full generality.
-/

namespace Backtester

/-- Sign function mirroring numpy.sign as used in Position.update_position:
1 for positive, -1 for negative, 0 for zero. -/
def signQ (x : ℚ) : ℚ := if 0 < x then 1 else if x < 0 then -1 else 0

/-- Order direction (class OrderSide). -/
inductive OrderSide
  | buy
  | sell
deriving DecidableEq, Repr

/-- Order kind (class OrderType). -/
inductive OrderType
  | market
  | limit
  | stop
  | stop_limit
deriving DecidableEq, Repr

/-- Order lifecycle status (class OrderStatus).  The source member named
PARTIAL is rendered partialFill here. -/
inductive OrderStatus
  | pending
  | filled
  | partialFill
  | cancelled
  | rejected
deriving DecidableEq, Repr

/-- The Order dataclass.  Timestamps are modelled by the step index of the
run loop; order_id is never consulted by the engine. -/
structure Order where
  symbol : String
  side : OrderSide
  order_type : OrderType
  quantity : ℚ
  price : Option ℚ := none
  stop_price : Option ℚ := none
  timestamp : Option Nat := none
  order_id : Option String := none
  status : OrderStatus := .pending
  filled_quantity : ℚ := 0
  filled_price : ℚ := 0
  commission : ℚ := 0
  slippage : ℚ := 0
deriving DecidableEq, Repr

/-- The Position dataclass. -/
structure Position where
  symbol : String
  quantity : ℚ := 0
  avg_price : ℚ := 0
  market_value : ℚ := 0
  unrealized_pnl : ℚ := 0
  realized_pnl : ℚ := 0
deriving DecidableEq, Repr

/-- Position.update_position (backtester.py lines 68-102), translated
branch by branch: open when flat, weighted-average add when the trade has
the same numpy sign as the holding, otherwise realize P&L for a reduction,
full close, or reversal; afterwards recompute market_value and, when the
resulting quantity is nonzero, unrealized_pnl. -/
def Position.update_position (p : Position)
    (trade_quantity trade_price current_price : ℚ) : Position :=
  let p1 :=
    if p.quantity = 0 then
      { p with quantity := trade_quantity, avg_price := trade_price }
    else if signQ trade_quantity = signQ p.quantity then
      let total_cost := p.quantity * p.avg_price + trade_quantity * trade_price
      let q' := p.quantity + trade_quantity
      { p with quantity := q',
               avg_price := if q' ≠ 0 then total_cost / q' else 0 }
    else
      if |trade_quantity| ≥ |p.quantity| then
        let realized := p.realized_pnl + (trade_price - p.avg_price) * p.quantity
        let remaining := trade_quantity + p.quantity
        if remaining ≠ 0 then
          { p with realized_pnl := realized, quantity := remaining,
                   avg_price := trade_price }
        else
          { p with realized_pnl := realized, quantity := 0, avg_price := 0 }
      else
        { p with realized_pnl :=
                   p.realized_pnl + (trade_price - p.avg_price) * |trade_quantity|,
                 quantity := p.quantity + trade_quantity }
  let p2 := { p1 with market_value := p1.quantity * current_price }
  if p2.quantity ≠ 0 then
    { p2 with unrealized_pnl := (current_price - p2.avg_price) * p2.quantity }
  else p2

theorem signQ_eq_zero_iff (x : ℚ) : signQ x = 0 ↔ x = 0 := by
  unfold signQ
  rcases lt_trichotomy 0 x with h | h | h
  · simp [h, not_lt.mpr h.le]
    intro hx
    exact absurd hx (ne_of_gt h)
  · simp [← h]
  · simp [h, not_lt.mpr h.le, ne_of_lt h]

theorem signQ_of_pos {x : ℚ} (h : 0 < x) : signQ x = 1 := by
  simp [signQ, h]

theorem signQ_of_neg {x : ℚ} (h : x < 0) : signQ x = -1 := by
  simp [signQ, not_lt.mpr h.le, h]

/-- Reference per-fill realized amount for P1: the amount a single call of
update_position adds to realized_pnl, recomputed from quantity, average
price, trade quantity and trade price alone. -/
def refRealizedDelta (q avg tq tp : ℚ) : ℚ :=
  if q = 0 then 0
  else if signQ tq = signQ q then 0
  else if |tq| ≥ |q| then (tp - avg) * q
  else (tp - avg) * |tq|

/-- Reference quantity and average-price transition of one fill, recomputed
independently of the Position record. -/
def refStep (s : ℚ × ℚ) (tq tp : ℚ) : ℚ × ℚ :=
  if s.1 = 0 then (tq, tp)
  else if signQ tq = signQ s.1 then
    (s.1 + tq, if s.1 + tq ≠ 0 then (s.1 * s.2 + tq * tp) / (s.1 + tq) else 0)
  else if |tq| ≥ |s.1| then
    (if tq + s.1 ≠ 0 then (tq + s.1, tp) else (0, 0))
  else (s.1 + tq, s.2)

/-- Sum of the reference per-fill realized amounts over a sequence of fills,
each fill a triple of trade quantity, trade price and current price. -/
def refRealizedSum : ℚ → ℚ → List (ℚ × ℚ × ℚ) → ℚ
  | _, _, [] => 0
  | q, avg, e :: es =>
    refRealizedDelta q avg e.1 e.2.1 +
      refRealizedSum (refStep (q, avg) e.1 e.2.1).1 (refStep (q, avg) e.1 e.2.1).2 es

/-- A sequence of fills applied through Position.update_position. -/
def applyFills (p : Position) (fills : List (ℚ × ℚ × ℚ)) : Position :=
  fills.foldl (fun p e => p.update_position e.1 e.2.1 e.2.2) p

theorem update_position_quantity (p : Position) (tq tp cp : ℚ) :
    (p.update_position tq tp cp).quantity =
      (refStep (p.quantity, p.avg_price) tq tp).1 := by
  unfold Position.update_position refStep
  split_ifs <;>
    simp_all [apply_ite Position.quantity] <;>
    split_ifs <;> simp_all

theorem update_position_avg (p : Position) (tq tp cp : ℚ) :
    (p.update_position tq tp cp).avg_price =
      (refStep (p.quantity, p.avg_price) tq tp).2 := by
  unfold Position.update_position refStep
  split_ifs <;>
    simp_all [apply_ite Position.avg_price] <;>
    split_ifs <;> simp_all

theorem update_position_realized (p : Position) (tq tp cp : ℚ) :
    (p.update_position tq tp cp).realized_pnl =
      p.realized_pnl + refRealizedDelta p.quantity p.avg_price tq tp := by
  unfold Position.update_position refRealizedDelta
  split_ifs <;>
    simp_all [apply_ite Position.realized_pnl] <;>
    split_ifs <;> simp_all

theorem applyFills_realized (fills : List (ℚ × ℚ × ℚ)) : ∀ p : Position,
    (applyFills p fills).realized_pnl =
      p.realized_pnl + refRealizedSum p.quantity p.avg_price fills := by
  induction fills with
  | nil => intro p; simp [applyFills, refRealizedSum]
  | cons e es ih =>
    intro p
    have h1 : applyFills p (e :: es) =
        applyFills (p.update_position e.1 e.2.1 e.2.2) es := rfl
    rw [h1, ih, update_position_realized, update_position_quantity,
      update_position_avg, refRealizedSum]
    ring

/-- The statement of C1 for a single opposite-sign fill, phrased on the
fields of update_position's result. -/
def oppositeFillSpec (p : Position) (tq tp cp : ℚ) : Prop :=
  (|tq| ≥ |p.quantity| →
     (p.update_position tq tp cp).realized_pnl =
       p.realized_pnl + (tp - p.avg_price) * p.quantity ∧
     (tq + p.quantity ≠ 0 →
        (p.update_position tq tp cp).quantity = tq + p.quantity ∧
        (p.update_position tq tp cp).avg_price = tp ∧
        signQ (p.update_position tq tp cp).quantity = -signQ p.quantity) ∧
     (tq + p.quantity = 0 →
        (p.update_position tq tp cp).quantity = 0 ∧
        (p.update_position tq tp cp).avg_price = 0)) ∧
  (|tq| < |p.quantity| →
     (p.update_position tq tp cp).realized_pnl =
       p.realized_pnl + (tp - p.avg_price) * |tq| ∧
     (p.update_position tq tp cp).quantity = p.quantity + tq ∧
     (p.update_position tq tp cp).avg_price = p.avg_price)

/-- The statement of P1's sum property: over any fill sequence, the final
realized_pnl is the initial one plus the sum of the reference per-fill
realized amounts. -/
def realizedSumSpec : Prop :=
  ∀ (p : Position) (fills : List (ℚ × ℚ × ℚ)),
    (applyFills p fills).realized_pnl =
      p.realized_pnl + refRealizedSum p.quantity p.avg_price fills

theorem signQ_ne_of_mul_neg {tq q : ℚ} (hop : tq * q < 0) :
    signQ tq ≠ signQ q := by
  rcases mul_neg_iff.mp hop with ⟨htq, hq⟩ | ⟨htq, hq⟩
  · rw [signQ_of_pos htq, signQ_of_neg hq]; norm_num
  · rw [signQ_of_neg htq, signQ_of_pos hq]; norm_num

theorem signQ_add_of_opposite {tq q : ℚ} (hop : tq * q < 0)
    (hge : |tq| ≥ |q|) (hrem : tq + q ≠ 0) : signQ (tq + q) = -signQ q := by
  rcases mul_neg_iff.mp hop with ⟨htq, hq⟩ | ⟨htq, hq⟩
  · have hle : -q ≤ tq := by rwa [abs_of_pos htq, abs_of_neg hq] at hge
    have h1 : 0 < tq + q := lt_of_le_of_ne (by linarith) (Ne.symm hrem)
    rw [signQ_of_pos h1, signQ_of_neg hq]; norm_num
  · have hle : -tq ≥ q := by rwa [abs_of_neg htq, abs_of_pos hq] at hge
    have h1 : tq + q < 0 := lt_of_le_of_ne (by linarith) hrem
    rw [signQ_of_neg h1, signQ_of_pos hq]

/-- C1: an opposite-sign trade on a nonzero position realizes P&L exactly as
described by the source branch (full close, reversal, or partial close), and
over any fill sequence the final realized_pnl is the initial one plus the sum
of the reference per-fill realized amounts. -/
theorem update_position_opposite_sign_accounting (p : Position) (tq tp cp : ℚ)
    (hq : p.quantity ≠ 0) (hop : tq * p.quantity < 0) :
    oppositeFillSpec p tq tp cp ∧ realizedSumSpec := by
  have hsign : signQ tq ≠ signQ p.quantity := signQ_ne_of_mul_neg hop
  refine ⟨⟨?_, ?_⟩, fun p0 fills => applyFills_realized fills p0⟩
  · intro hge
    refine ⟨?_, ?_, ?_⟩
    · rw [update_position_realized]
      unfold refRealizedDelta
      rw [if_neg hq, if_neg hsign, if_pos hge]
    · intro hrem
      have h1 : (p.update_position tq tp cp).quantity = tq + p.quantity := by
        rw [update_position_quantity]
        unfold refStep
        simp only [if_neg hq, if_neg hsign, if_pos hge, if_pos hrem]
      have h2 : (p.update_position tq tp cp).avg_price = tp := by
        rw [update_position_avg]
        unfold refStep
        simp only [if_neg hq, if_neg hsign, if_pos hge, if_pos hrem]
      refine ⟨h1, h2, ?_⟩
      rw [h1]
      exact signQ_add_of_opposite hop hge hrem
    · intro hrem
      constructor
      · rw [update_position_quantity]
        unfold refStep
        simp only [if_neg hq, if_neg hsign, if_pos hge, if_neg (not_not.mpr hrem)]
      · rw [update_position_avg]
        unfold refStep
        simp only [if_neg hq, if_neg hsign, if_pos hge, if_neg (not_not.mpr hrem)]
  · intro hlt
    have hnge : ¬ (|tq| ≥ |p.quantity|) := not_le.mpr hlt
    refine ⟨?_, ?_, ?_⟩
    · rw [update_position_realized]
      unfold refRealizedDelta
      rw [if_neg hq, if_neg hsign, if_neg hnge]
    · rw [update_position_quantity]
      unfold refStep
      simp only [if_neg hq, if_neg hsign, if_neg hnge]
    · rw [update_position_avg]
      unfold refStep
      simp only [if_neg hq, if_neg hsign, if_neg hnge]

/-- Witness for C1 at a long position of 10 at price 100 hit by a sell of 4
at price 110. -/
theorem update_position_opposite_sign_accounting_witness :
    ((⟨"d", 10, 100, 0, 0, 0⟩ : Position).quantity ≠ 0 ∧
     (-4 : ℚ) * (⟨"d", 10, 100, 0, 0, 0⟩ : Position).quantity < 0) ∧
    (oppositeFillSpec ⟨"d", 10, 100, 0, 0, 0⟩ (-4) 110 110 ∧ realizedSumSpec) :=
  ⟨⟨by norm_num, by norm_num⟩,
   update_position_opposite_sign_accounting ⟨"d", 10, 100, 0, 0, 0⟩ (-4) 110 110
     (by norm_num) (by norm_num)⟩

theorem update_position_flat_trade (p : Position) (cp : ℚ)
    (hq : p.quantity ≠ 0) :
    p.update_position 0 0 cp =
      { p with market_value := p.quantity * cp,
               unrealized_pnl := (cp - p.avg_price) * p.quantity } := by
  have hs : ¬ signQ (0 : ℚ) = signQ p.quantity := by
    intro h
    exact hq ((signQ_eq_zero_iff _).mp h.symm)
  have habs : ¬ (|(0 : ℚ)| ≥ |p.quantity|) := by
    simpa using hq
  unfold Position.update_position
  rw [if_neg hq, if_neg hs, if_neg habs]
  simp [hq]

/-- C10: a mark-to-market call update_position(0, 0, current_price) on a
position with nonzero quantity changes only market_value and unrealized_pnl,
leaving quantity, avg_price and realized_pnl unchanged. -/
theorem update_position_mark_to_market (p : Position) (cp : ℚ)
    (hq : p.quantity ≠ 0) :
    p.update_position 0 0 cp =
      { p with market_value := p.quantity * cp,
               unrealized_pnl := (cp - p.avg_price) * p.quantity } :=
  update_position_flat_trade p cp hq

/-- Witness for C10 at a long position of 5 at price 7 marked at price 9. -/
theorem update_position_mark_to_market_witness :
    ((⟨"d", 5, 7, 0, 0, 0⟩ : Position).quantity ≠ 0) ∧
    (⟨"d", 5, 7, 0, 0, 0⟩ : Position).update_position 0 0 9 =
      { (⟨"d", 5, 7, 0, 0, 0⟩ : Position) with
          market_value := (⟨"d", 5, 7, 0, 0, 0⟩ : Position).quantity * 9,
          unrealized_pnl :=
            (9 - (⟨"d", 5, 7, 0, 0, 0⟩ : Position).avg_price) *
              (⟨"d", 5, 7, 0, 0, 0⟩ : Position).quantity } :=
  ⟨by norm_num,
   update_position_mark_to_market ⟨"d", 5, 7, 0, 0, 0⟩ 9 (by norm_num)⟩

theorem signQ_eq_one_iff (x : ℚ) : signQ x = 1 ↔ 0 < x := by
  unfold signQ
  split_ifs with h1 h2
  · simpa using h1
  · exact ⟨fun h => by norm_num at h, fun h => absurd h h1⟩
  · exact ⟨fun h => by norm_num at h, fun h => absurd h h1⟩

theorem signQ_eq_neg_one_iff (x : ℚ) : signQ x = -1 ↔ x < 0 := by
  unfold signQ
  split_ifs with h1 h2
  · exact ⟨fun h => by norm_num at h, fun h => absurd h (asymm h1)⟩
  · simpa using h2
  · exact ⟨fun h => by norm_num at h, fun h => absurd h h2⟩

/-- A fresh position, as Portfolio.get_position lazily creates it. -/
def emptyPos (sym : String) : Position := ⟨sym, 0, 0, 0, 0, 0⟩

/-- A sequence of fills, each executed at its own market price with zero
slippage, applied through update_position exactly as execute_order does for
a market order (trade price and current price both equal the fill price). -/
def foldFills (p : Position) (fills : List (ℚ × ℚ)) : Position :=
  fills.foldl (fun p e => p.update_position e.1 e.2 e.2) p

/-- The position produced by a fill sequence started from a fresh position. -/
def tracePos (sym : String) (fills : List (ℚ × ℚ)) : Position :=
  foldFills (emptyPos sym) fills

/-- Net cash flow of the same fills under zero commission, mirroring
execute_order lines 372-379: a buy of quantity q at price pr moves cash by
-q*pr, a sell by +q*pr; with signed trade quantity both read -tq*pr. -/
def cashDelta (fills : List (ℚ × ℚ)) : ℚ :=
  -((fills.map (fun e => e.1 * e.2)).sum)

/-- End-of-run mark-to-market of one position, with the guard of
Portfolio.update_portfolio (only positions with nonzero quantity are
revalued). -/
def markPos (p : Position) (fp : ℚ) : Position :=
  if p.quantity ≠ 0 then p.update_position 0 0 fp else p

/-- Holds unless the fill is a partial close of a short position, the one
shape whose realized-P&L bookkeeping in update_position has an inverted
sign. -/
def goodFill (p : Position) (tq : ℚ) : Prop :=
  ¬ (tq * p.quantity < 0 ∧ |tq| < |p.quantity| ∧ p.quantity < 0)

/-- A fill sequence none of whose fills partially closes a short. -/
def goodTrace : Position → List (ℚ × ℚ) → Prop
  | _, [] => True
  | p, e :: es => goodFill p e.1 ∧ goodTrace (p.update_position e.1 e.2 e.2) es

theorem update_position_book_value (p : Position) (tq pr : ℚ)
    (hg : goodFill p tq) :
    (p.update_position tq pr pr).quantity * (p.update_position tq pr pr).avg_price
        - (p.update_position tq pr pr).realized_pnl
      = p.quantity * p.avg_price - p.realized_pnl + tq * pr := by
  rw [update_position_quantity, update_position_avg, update_position_realized]
  unfold refStep refRealizedDelta
  by_cases h0 : p.quantity = 0
  · simp [h0]
    ring
  · by_cases hs : signQ tq = signQ p.quantity
    · have hq' : p.quantity + tq ≠ 0 := by
        rcases lt_trichotomy 0 p.quantity with h | h | h
        · have htq : 0 < tq := (signQ_eq_one_iff tq).mp
            (by rw [hs, signQ_of_pos h])
          positivity
        · exact absurd h.symm h0
        · have htq : tq < 0 := (signQ_eq_neg_one_iff tq).mp
            (by rw [hs, signQ_of_neg h])
          have : p.quantity + tq < 0 := by linarith
          exact ne_of_lt this
      simp only [if_neg h0, if_pos hs, if_pos hq']
      field_simp
      ring
    · by_cases hge : |tq| ≥ |p.quantity|
      · by_cases hrem : tq + p.quantity ≠ 0
        · simp only [if_neg h0, if_neg hs, if_pos hge, if_pos hrem]
          ring
        · have h1 : tq = -p.quantity := by
            have := not_not.mp hrem
            linarith
          simp only [if_neg h0, if_neg hs, if_pos hge, if_neg (not_not.mpr (not_not.mp hrem))]
          simp [h1]
          ring
      · simp only [if_neg h0, if_neg hs, if_neg hge]
        rcases lt_trichotomy 0 p.quantity with h | h | h
        · have htq : tq ≤ 0 := by
            by_contra hc
            push_neg at hc
            exact hs (by rw [signQ_of_pos hc, signQ_of_pos h])
          rw [abs_of_nonpos htq]
          ring
        · exact absurd h.symm h0
        · have htq : 0 ≤ tq := by
            by_contra hc
            push_neg at hc
            exact hs (by rw [signQ_of_neg hc, signQ_of_neg h])
          rcases eq_or_lt_of_le htq with h2 | h2
          · rw [← h2]
            simp
          · exfalso
            have hbad : tq * p.quantity < 0 := mul_neg_of_pos_of_neg h2 h
            have hlt : |tq| < |p.quantity| := not_le.mp hge
            exact hg ⟨hbad, hlt, h⟩

theorem foldFills_book_value (fills : List (ℚ × ℚ)) : ∀ p : Position,
    goodTrace p fills →
    (foldFills p fills).quantity * (foldFills p fills).avg_price
        - (foldFills p fills).realized_pnl
      = p.quantity * p.avg_price - p.realized_pnl
          + (fills.map (fun e => e.1 * e.2)).sum := by
  induction fills with
  | nil => intro p _; simp [foldFills]
  | cons e es ih =>
    intro p hg
    obtain ⟨hg1, hg2⟩ := hg
    have h1 : foldFills p (e :: es) =
        foldFills (p.update_position e.1 e.2 e.2) es := rfl
    rw [h1, ih _ hg2, update_position_book_value p e.1 e.2 hg1]
    simp
    ring

theorem markPos_quantity (p : Position) (fp : ℚ) :
    (markPos p fp).quantity = p.quantity := by
  unfold markPos
  split_ifs with h
  · rw [update_position_flat_trade p fp h]
  · rfl

theorem markPos_avg (p : Position) (fp : ℚ) :
    (markPos p fp).avg_price = p.avg_price := by
  unfold markPos
  split_ifs with h
  · rw [update_position_flat_trade p fp h]
  · rfl

theorem markPos_realized (p : Position) (fp : ℚ) :
    (markPos p fp).realized_pnl = p.realized_pnl := by
  unfold markPos
  split_ifs with h
  · rw [update_position_flat_trade p fp h]
  · rfl

theorem update_position_mv_eq (p : Position) (tq tp cp : ℚ) :
    (p.update_position tq tp cp).market_value =
      (p.update_position tq tp cp).quantity * cp := by
  unfold Position.update_position
  split_ifs <;>
    simp_all [apply_ite Position.market_value, apply_ite Position.quantity] <;>
    split_ifs <;> simp_all

theorem update_position_mv_flat (p : Position) (tq tp cp : ℚ)
    (h : (p.update_position tq tp cp).quantity = 0) :
    (p.update_position tq tp cp).market_value = 0 := by
  rw [update_position_mv_eq, h, zero_mul]

theorem markPos_market_value (p : Position) (fp : ℚ)
    (h0 : p.quantity = 0 → p.market_value = 0) :
    (markPos p fp).market_value = p.quantity * fp := by
  unfold markPos
  split_ifs with h
  · rw [update_position_flat_trade p fp h]
  · rw [not_not] at h
    rw [h, h0 h, zero_mul]

theorem foldFills_mv_flat (fills : List (ℚ × ℚ)) : ∀ p : Position,
    (p.quantity = 0 → p.market_value = 0) →
    ((foldFills p fills).quantity = 0 → (foldFills p fills).market_value = 0) := by
  induction fills with
  | nil => intro p hp; exact hp
  | cons e es ih =>
    intro p _
    exact ih (p.update_position e.1 e.2 e.2) (update_position_mv_flat p e.1 e.2 e.2)

theorem tracePos_mv_flat (sym : String) (fills : List (ℚ × ℚ)) :
    (tracePos sym fills).quantity = 0 → (tracePos sym fills).market_value = 0 :=
  foldFills_mv_flat fills (emptyPos sym) (fun _ => rfl)

theorem trace_cash_identity (sym : String) (fills : List (ℚ × ℚ)) (fp : ℚ)
    (hg : goodTrace (emptyPos sym) fills) :
    cashDelta fills + (markPos (tracePos sym fills) fp).market_value
      = (markPos (tracePos sym fills) fp).realized_pnl
        + (fp - (markPos (tracePos sym fills) fp).avg_price)
            * (markPos (tracePos sym fills) fp).quantity := by
  rw [markPos_quantity, markPos_avg, markPos_realized,
    markPos_market_value _ _ (tracePos_mv_flat sym fills)]
  have hb := foldFills_book_value fills (emptyPos sym) hg
  have e1 : (emptyPos sym).quantity = 0 := rfl
  have e2 : (emptyPos sym).avg_price = 0 := rfl
  have e3 : (emptyPos sym).realized_pnl = 0 := rfl
  rw [e1, e2, e3] at hb
  have hcd : cashDelta fills = -((fills.map (fun e => e.1 * e.2)).sum) := rfl
  unfold tracePos
  linear_combination hcd + hb

/-- End state of one instrument after its fill trace, marked at its final
price through Portfolio.update_portfolio's guard. -/
def traceMarked (t : String × List (ℚ × ℚ) × ℚ) : Position :=
  markPos (tracePos t.1 t.2.1) t.2.2

/-- Final cash of a zero-commission, zero-slippage, market-order run:
initial capital plus each instrument's cash flow. -/
def finalCash (C : ℚ) (ts : List (String × List (ℚ × ℚ) × ℚ)) : ℚ :=
  C + (ts.map (fun t => cashDelta t.2.1)).sum

/-- The corrected balance sheet of C2: final cash plus the sum of position
market values equals initial capital plus the sum of realized P&L plus the
sum of open-position unrealized P&L, each term computed at the final mark
price. -/
def cashConservationSpec (C : ℚ)
    (ts : List (String × List (ℚ × ℚ) × ℚ)) : Prop :=
  finalCash C ts + (ts.map (fun t => (traceMarked t).market_value)).sum
    = C + (ts.map (fun t => (traceMarked t).realized_pnl)).sum
        + (ts.map (fun t =>
            (t.2.2 - (traceMarked t).avg_price) * (traceMarked t).quantity)).sum

theorem cash_conservation_aux :
    ∀ ts : List (String × List (ℚ × ℚ) × ℚ),
    (∀ t ∈ ts, goodTrace (emptyPos t.1) t.2.1) →
    (ts.map (fun t => cashDelta t.2.1)).sum
        + (ts.map (fun t => (traceMarked t).market_value)).sum
      = (ts.map (fun t => (traceMarked t).realized_pnl)).sum
          + (ts.map (fun t =>
              (t.2.2 - (traceMarked t).avg_price) * (traceMarked t).quantity)).sum := by
  intro ts
  induction ts with
  | nil => intro _; simp
  | cons t ts ih =>
    intro hg
    simp only [List.map_cons, List.sum_cons]
    have h1 : cashDelta t.2.1 + (traceMarked t).market_value
        = (traceMarked t).realized_pnl
          + (t.2.2 - (traceMarked t).avg_price) * (traceMarked t).quantity :=
      trace_cash_identity t.1 t.2.1 t.2.2 (hg t (List.mem_cons_self t ts))
    have h2 := ih (fun x hx => hg x (List.mem_cons_of_mem t hx))
    linarith [h1, h2]

/-- C2 amended: with zero commission and slippage and market fills only, the
balance holds once the sum of unrealized P&L is added to the right-hand side,
provided no fill partially closes a short position. -/
theorem cash_conservation_zero_cost (C : ℚ)
    (ts : List (String × List (ℚ × ℚ) × ℚ))
    (hg : ∀ t ∈ ts, goodTrace (emptyPos t.1) t.2.1) :
    cashConservationSpec C ts := by
  unfold cashConservationSpec finalCash
  have h := cash_conservation_aux ts hg
  linarith

/-- Witness for the amended C2: buy 1 at 100, sell 1 at 105, mark at 105,
on initial capital 1000. -/
theorem cash_conservation_zero_cost_witness :
    (∀ t ∈ [("default", [((1 : ℚ), (100 : ℚ)), (-1, 105)], (105 : ℚ))],
       goodTrace (emptyPos t.1) t.2.1) ∧
    cashConservationSpec 1000
      [("default", [((1 : ℚ), (100 : ℚ)), (-1, 105)], (105 : ℚ))] :=
  ⟨by
    intro t ht
    simp only [List.mem_singleton] at ht
    subst ht
    norm_num [goodTrace, goodFill, emptyPos, Position.update_position, signQ],
   cash_conservation_zero_cost 1000 _ (by
    intro t ht
    simp only [List.mem_singleton] at ht
    subst ht
    norm_num [goodTrace, goodFill, emptyPos, Position.update_position, signQ])⟩

/-- C2 as stated is false: a single zero-cost market buy of 1 unit at price
100, marked at a final price of 105, leaves final cash plus market value at
1005 while initial capital plus realized P&L is 1000. -/
theorem cash_conservation_as_stated_cex :
    ¬ (finalCash 1000 [("default", [((1 : ℚ), (100 : ℚ))], (105 : ℚ))]
         + ([("default", [((1 : ℚ), (100 : ℚ))], (105 : ℚ))].map
             (fun t => (traceMarked t).market_value)).sum
       = 1000
         + ([("default", [((1 : ℚ), (100 : ℚ))], (105 : ℚ))].map
             (fun t => (traceMarked t).realized_pnl)).sum) := by
  norm_num [finalCash, traceMarked, tracePos, foldFills, emptyPos, cashDelta,
    markPos, Position.update_position, signQ]

/-- Python exceptions the embedded engine can raise: ZeroDivisionError from
a float division by zero and ValueError from run_backtest's precondition
checks. -/
inductive PyErr
  | zeroDivisionError
  | valueError
deriving DecidableEq, Repr

/-- The aggregate snapshot returned by Portfolio.update_portfolio. -/
structure PortfolioMetrics where
  total_value : ℚ
  cash : ℚ
  market_value : ℚ
  unrealized_pnl : ℚ
  realized_pnl : ℚ
  margin_used : ℚ
  margin_available : ℚ
deriving DecidableEq, Repr

/-- The Portfolio dataclass in the engine's single-instrument configuration:
the positions dictionary holds at most the entry for the synthetic symbol
named default, represented by the field pos (a fresh zero position stands
for an absent entry, which update_portfolio and the sums treat
identically). -/
structure Portfolio where
  initial_capital : ℚ
  cash : ℚ
  pos : Position
  total_value : ℚ := 0
  margin_used : ℚ := 0
  margin_available : ℚ := 0
  leverage : ℚ := 1
deriving DecidableEq, Repr

/-- Closing step of Portfolio.update_portfolio (lines 134-146): recompute
total_value, margin_used and margin_available from cash and the accumulated
market value, and return the aggregate snapshot.  A zero leverage would make
the Python float division raise. -/
def portfolioAggregate (pf : Portfolio) (pos' : Position)
    (tmv tupnl trpnl : ℚ) : Except PyErr (Portfolio × PortfolioMetrics) :=
  if pf.leverage = 0 then .error .zeroDivisionError
  else
    let total_value := pf.cash + tmv
    let margin_used := tmv / pf.leverage
    let margin_available := pf.cash - margin_used
    .ok ({ pf with pos := pos',
                   total_value := total_value,
                   margin_used := margin_used,
                   margin_available := margin_available },
         { total_value := total_value,
           cash := pf.cash,
           market_value := tmv,
           unrealized_pnl := tupnl,
           realized_pnl := trpnl,
           margin_used := margin_used,
           margin_available := margin_available })

/-- Portfolio.update_portfolio (lines 121-146): positions with nonzero
quantity and a known price are marked to market with update_position(0, 0,
price) and accumulated with the absolute market value; then the cash-derived
aggregates are recomputed. -/
def Portfolio.update_portfolio (pf : Portfolio) (price : Option ℚ) :
    Except PyErr (Portfolio × PortfolioMetrics) :=
  match price with
  | some pr =>
    if pf.pos.quantity ≠ 0 then
      let pos' := pf.pos.update_position 0 0 pr
      portfolioAggregate pf pos' |pos'.market_value| pos'.unrealized_pnl
        pos'.realized_pnl
    else portfolioAggregate pf pf.pos 0 0 0
  | none => portfolioAggregate pf pf.pos 0 0 0

/-- The TradingCostModel parameters with the constructor defaults. -/
structure TradingCostModel where
  commission_rate : ℚ := 1/1000
  commission_min : ℚ := 1
  slippage_rate : ℚ := 1/2000
  impact_coeff : ℚ := 1/10
deriving DecidableEq, Repr

/-- TradingCostModel.calculate_costs (lines 161-178): commission is the
maximum of quantity times filled price times the rate and the minimum
commission; slippage is the base slippage plus the market impact.  The
average volume is read from the market data with a default of 1000000 for a
missing key; a present zero volume makes the Python division raise. -/
def TradingCostModel.calculate_costs (cm : TradingCostModel) (o : Order)
    (avg_volume : Option ℚ) : Except PyErr (ℚ × ℚ) :=
  let commission := max (o.quantity * o.filled_price * cm.commission_rate)
    cm.commission_min
  let base_slippage := o.filled_price * cm.slippage_rate
  let av := avg_volume.getD 1000000
  if av = 0 then .error .zeroDivisionError
  else
    let impact := o.quantity / av * cm.impact_coeff * o.filled_price
    .ok (commission, base_slippage + impact)

/-- The RiskManager with its constructor defaults and its mutable peak and
drawdown state. -/
structure RiskManager where
  max_position_size : ℚ := 1/10
  max_portfolio_risk : ℚ := 1/50
  max_drawdown : ℚ := 1/5
  var_limit : ℚ := 1/20
  peak_value : ℚ := 0
  current_drawdown : ℚ := 0
deriving DecidableEq, Repr

/-- RiskManager.check_order (lines 195-226): the position-size gate divides
the hypothetical position value by portfolio total_value (raising on zero),
then the margin gate, then the peak update, the drawdown division (raising
on a zero peak) and the drawdown gate.  The returned manager carries the
peak/drawdown mutations of the call; the f-string reason messages are
truncated to their constant prefixes, which no caller inspects beyond the
boolean. -/
def RiskManager.check_order (rm : RiskManager) (o : Order) (pf : Portfolio)
    (market_data : Option ℚ) : Except PyErr ((Bool × String) × RiskManager) :=
  let position := if o.symbol = "default" then pf.pos else emptyPos o.symbol
  let new_quantity := if o.side = .buy then position.quantity + o.quantity
                      else position.quantity - o.quantity
  let psym := if o.symbol = "default" then market_data.getD 0 else 0
  let position_value := |new_quantity * psym|
  if pf.total_value = 0 then .error .zeroDivisionError
  else
    let position_weight := position_value / pf.total_value
    if position_weight > rm.max_position_size then
      .ok ((false, "Position size exceeds limit"), rm)
    else if pf.margin_available < 0 then
      .ok ((false, "Insufficient margin"), rm)
    else
      let peak := if pf.total_value > rm.peak_value then pf.total_value
                  else rm.peak_value
      if peak = 0 then .error .zeroDivisionError
      else
        let dd := (peak - pf.total_value) / peak
        let rm' := { rm with peak_value := peak, current_drawdown := dd }
        if dd > rm.max_drawdown then
          .ok ((false, "Maximum drawdown exceeded"), rm')
        else .ok ((true, "Order approved"), rm')

/-- The per-step risk snapshot of update_risk_metrics.  The var_estimate
entry of the Python dict is total_value scaled by a fixed constant built
from the inverse normal CDF; it is deterministic in total_value and carried
by no examined behaviour, so it is omitted from the record. -/
structure RiskMetrics where
  peak_value : ℚ
  current_drawdown : ℚ
deriving DecidableEq, Repr

/-- RiskManager.update_risk_metrics (lines 228-239): update the peak to the
running maximum of total_value and recompute the drawdown, raising when the
updated peak is zero. -/
def RiskManager.update_risk_metrics (rm : RiskManager) (pf : Portfolio) :
    Except PyErr (RiskManager × RiskMetrics) :=
  let peak := if pf.total_value > rm.peak_value then pf.total_value
              else rm.peak_value
  if peak = 0 then .error .zeroDivisionError
  else
    let dd := (peak - pf.total_value) / peak
    .ok ({ rm with peak_value := peak, current_drawdown := dd },
         { peak_value := peak, current_drawdown := dd })

/-- One entry of the trades log (execute_order lines 382-392). -/
structure TradeRecord where
  timestamp : Nat
  symbol : String
  side : OrderSide
  quantity : ℚ
  price : ℚ
  commission : ℚ
  slippage : ℚ
  total_cost : ℚ
  cash_after : ℚ
deriving DecidableEq, Repr

/-- One entry of portfolio_history (run_backtest lines 457-462): the
portfolio aggregates, the risk aggregates and the returns placeholder. -/
structure HistoryRecord where
  timestamp : Nat
  total_value : ℚ
  cash : ℚ
  market_value : ℚ
  unrealized_pnl : ℚ
  realized_pnl : ℚ
  margin_used : ℚ
  margin_available : ℚ
  peak_value : ℚ
  current_drawdown : ℚ
  returns : ℚ
deriving DecidableEq, Repr

/-- The mutable state of a BacktestEngine: portfolio, cost model, risk
manager, the three logs, and the current_prices dictionary, which in the
single-instrument configuration holds at most the price of the default
symbol. -/
structure BacktestEngine where
  portfolio : Portfolio
  cost_model : TradingCostModel
  risk_manager : RiskManager
  trades : List TradeRecord
  portfolio_history : List HistoryRecord
  orders : List Order
  current_price : Option ℚ
deriving DecidableEq, Repr

/-- BacktestEngine.__init__ (lines 265-291); the Python defaults are
initial capital 1000000, commission rate 1/1000, slippage rate 1/2000 and
leverage 1. -/
def BacktestEngine.init (initial_capital commission_rate slippage_rate
    leverage : ℚ) : BacktestEngine :=
  { portfolio := { initial_capital := initial_capital,
                   cash := initial_capital,
                   pos := emptyPos "default",
                   leverage := leverage },
    cost_model := { commission_rate := commission_rate,
                    slippage_rate := slippage_rate },
    risk_manager := {},
    trades := [],
    portfolio_history := [],
    orders := [],
    current_price := none }

/-- Fill-price resolution of execute_order (lines 316-335): market orders
fill at the current price, limit orders fill at the limit price when the
current price satisfies it and are otherwise skipped, and the remaining
kinds fall through to the current price. -/
def resolveFillPrice (o : Order) (current_price : ℚ) : Option ℚ :=
  match o.order_type with
  | .market => some current_price
  | .limit =>
    match o.price with
    | none => none
    | some lp =>
      match o.side with
      | .buy => if current_price ≤ lp then some lp else none
      | .sell => if current_price ≥ lp then some lp else none
  | _ => some current_price

/-- BacktestEngine.execute_order (lines 305-398): price lookup, fill-price
resolution, risk gate, cost computation, position fill, cash update and
trade logging, returning the fill flag together with the mutated engine
state and order.  The calculate_costs branch is invoked with the literal
average volume 1000000 of line 351 and therefore never raises. -/
def BacktestEngine.execute_order (s : BacktestEngine) (o : Order)
    (timestamp : Nat) : Except PyErr (Bool × BacktestEngine × Order) :=
  if o.symbol = "default" then
    match s.current_price with
    | none => .ok (false, s, o)
    | some current_price =>
      match resolveFillPrice o current_price with
      | none => .ok (false, s, o)
      | some fill_price =>
        match RiskManager.check_order s.risk_manager o s.portfolio
            s.current_price with
        | .error e => .error e
        | .ok ((approved, _msg), risk') =>
          if approved = false then
            .ok (false, { s with risk_manager := risk' },
                 { o with status := .rejected })
          else
            let o1 := { o with filled_price := fill_price,
                               filled_quantity := o.quantity }
            match TradingCostModel.calculate_costs s.cost_model o1
                (some 1000000) with
            | .error e => .error e
            | .ok (commission, slippage) =>
              let o2 := { o1 with commission := commission,
                                  slippage := slippage,
                                  status := .filled,
                                  timestamp := some timestamp }
              let trade_quantity := if o.side = .buy then o.quantity
                                    else -o.quantity
              let effective_price := if o.side = .buy then
                  fill_price + slippage else fill_price - slippage
              let pos' := s.portfolio.pos.update_position trade_quantity
                effective_price current_price
              let trade_value := o.quantity * effective_price
              let total_cost := trade_value + commission
              let cash' := if o.side = .buy then s.portfolio.cash - total_cost
                           else s.portfolio.cash + (trade_value - commission)
              let tr : TradeRecord := { timestamp := timestamp,
                                        symbol := o.symbol,
                                        side := o.side,
                                        quantity := o.quantity,
                                        price := effective_price,
                                        commission := commission,
                                        slippage := slippage,
                                        total_cost := total_cost,
                                        cash_after := cash' }
              .ok (true,
                   { s with portfolio := { s.portfolio with
                                            pos := pos',
                                            cash := cash' },
                            risk_manager := risk',
                            trades := s.trades ++ [tr] }, o2)
  else .ok (false, s, o)

/-- The order loop of run_backtest (lines 444-446): execute each signal in
order, appending filled orders to the orders log; an exception aborts the
loop, keeping the mutations of the earlier orders, and is reported through
the returned flag to the per-step handler. -/
def processOrders (timestamp : Nat) :
    BacktestEngine → List Order → BacktestEngine × Bool
  | s, [] => (s, false)
  | s, o :: os =>
    match s.execute_order o timestamp with
    | .error _ => (s, true)
    | .ok (filled, s', o') =>
      let s2 := if filled then { s' with orders := s'.orders ++ [o'] } else s'
      processOrders timestamp s2 os

/-- The body of one run-loop iteration after the current price has been
stored (lines 439-464): generate signals, process the orders, and unless an
exception was caught, revalue the portfolio, update the risk metrics and
append the history record.  A caught exception skips revaluation and the
history record (the continue of line 450). -/
def runStepPriced (strat : Nat → Except Unit (List Order))
    (s0 : BacktestEngine) (n : Nat) : Except PyErr BacktestEngine :=
  match strat n with
  | .error _ => .ok s0
  | .ok signals =>
    match processOrders n s0 signals with
    | (s1, true) => .ok s1
    | (s1, false) =>
      match Portfolio.update_portfolio s1.portfolio s1.current_price with
      | .error e => .error e
      | .ok (pf', pm) =>
        match RiskManager.update_risk_metrics s1.risk_manager pf' with
        | .error e => .error e
        | .ok (rm', rmet) =>
          .ok { s1 with portfolio := pf',
                        risk_manager := rm',
                        portfolio_history := s1.portfolio_history ++
                          [{ timestamp := n,
                             total_value := pm.total_value,
                             cash := pm.cash,
                             market_value := pm.market_value,
                             unrealized_pnl := pm.unrealized_pnl,
                             realized_pnl := pm.realized_pnl,
                             margin_used := pm.margin_used,
                             margin_available := pm.margin_available,
                             peak_value := rmet.peak_value,
                             current_drawdown := rmet.current_drawdown,
                             returns := 0 }] }

/-- One full run-loop iteration: store the row's close price under the
default symbol (lines 429-437), then run the step body. -/
def runStep (strat : Nat → Except Unit (List Order)) (s : BacktestEngine)
    (n : Nat) (p : ℚ) : Except PyErr BacktestEngine :=
  runStepPriced strat { s with current_price := some p } n

/-- The run loop over the data rows, numbering steps from zero. -/
def runSteps (strat : Nat → Except Unit (List Order)) :
    BacktestEngine → Nat → List ℚ → Except PyErr BacktestEngine
  | s, _, [] => .ok s
  | s, n, p :: ps =>
    match runStep strat s n p with
    | .error e => .error e
    | .ok s' => runSteps strat s' (n + 1) ps

/-- Body of _calculate_returns (lines 482-488) from the second record on:
each record's return is its total_value change over the previous record's
total_value, raising when the previous value is zero. -/
def calcReturnsAux (prev : ℚ) :
    List HistoryRecord → Except PyErr (List HistoryRecord)
  | [] => .ok []
  | h :: t =>
    if prev = 0 then .error .zeroDivisionError
    else
      match calcReturnsAux h.total_value t with
      | .error e => .error e
      | .ok rest => .ok ({ h with returns := (h.total_value - prev) / prev } :: rest)

/-- BacktestEngine._calculate_returns (lines 477-488): histories shorter
than two records are left unchanged, otherwise the first record's return is
zero and the rest follow calcReturnsAux. -/
def calcReturns (hist : List HistoryRecord) :
    Except PyErr (List HistoryRecord) :=
  if hist.length < 2 then .ok hist
  else
    match hist with
    | [] => .ok []
    | h0 :: rest =>
      match calcReturnsAux h0.total_value rest with
      | .error e => .error e
      | .ok rest' => .ok ({ h0 with returns := 0 } :: rest')

/-- The profitable-trade count of _generate_backtest_results (lines
505-507): a trade counts whenever it is a buy with positive recorded price
or a sell with positive recorded price. -/
def profitableCount (trades : List TradeRecord) : Nat :=
  (trades.filter (fun t =>
    (decide (t.side = OrderSide.buy) && decide (t.price > 0)) ||
    (decide (t.side = OrderSide.sell) && decide (t.price > 0)))).length

/-- The win-rate computation of _generate_backtest_results (lines 503-510). -/
def winRate (trades : List TradeRecord) : ℚ :=
  if trades.length > 0 then (profitableCount trades : ℚ) / (trades.length : ℚ)
  else 0

/-- The expanding maximum of pandas' expanding().max() over the total-value
series (line 513). -/
def runningPeaksAux (cur : ℚ) : List ℚ → List ℚ
  | [] => []
  | v :: vs => max cur v :: runningPeaksAux (max cur v) vs

/-- The drawdown series (value - peak) / peak of line 514.  This division is
performed by pandas, which yields an infinity rather than raising on a zero
peak; it is modelled with total rational division, and no examined behaviour
evaluates it at a zero peak. -/
def drawdownList (vps : List (ℚ × ℚ)) : List ℚ :=
  vps.map (fun e => (e.1 - e.2) / e.2)

/-- Minimum of a series as pandas' min on the nonempty drawdown series. -/
def listMin : List ℚ → ℚ
  | [] => 0
  | v :: vs => vs.foldl min v

/-- The result bundle of _generate_backtest_results (lines 517-527). -/
structure BacktestResults where
  initial_capital : ℚ
  final_value : ℚ
  total_return : ℚ
  total_trades : Nat
  win_rate : ℚ
  max_drawdown : ℚ
  portfolio_history : List HistoryRecord
  trades : List TradeRecord
  orders : List Order
deriving DecidableEq, Repr

/-- BacktestEngine._generate_backtest_results (lines 490-529): an empty
history yields the empty dict, modelled as none; otherwise the summary
statistics are computed, with the total-return division raising on a zero
initial capital. -/
def BacktestEngine.generate_backtest_results (s : BacktestEngine) :
    Except PyErr (Option BacktestResults) :=
  match s.portfolio_history with
  | [] => .ok none
  | h0 :: rest =>
    if s.portfolio.initial_capital = 0 then .error .zeroDivisionError
    else
      let total_return := (s.portfolio.total_value -
        s.portfolio.initial_capital) / s.portfolio.initial_capital
      let values := (h0 :: rest).map (fun h => h.total_value)
      let peaks := runningPeaksAux h0.total_value values
      let dds := drawdownList (values.zip peaks)
      let max_drawdown := listMin dds
      .ok (some { initial_capital := s.portfolio.initial_capital,
                  final_value := s.portfolio.total_value,
                  total_return := total_return,
                  total_trades := s.trades.length,
                  win_rate := winRate s.trades,
                  max_drawdown := |max_drawdown|,
                  portfolio_history := s.portfolio_history,
                  trades := s.trades, orders := s.orders })

/-- BacktestEngine.run_backtest (lines 400-475): absent data raises
ValueError, as does an empty row set; otherwise the trade, history and order
logs are cleared, the rows are replayed, the returns are filled in and the
result bundle is computed.  The strategy is a deterministic function from
the step index (which fixes the data window the Python strategy receives) to
either signals or a raised exception.  The optional date-range filter of
lines 409-412 only selects the row list handed to the loop and is applied
before it; the embedding takes the already-filtered rows. -/
def BacktestEngine.run_backtest (s : BacktestEngine)
    (strat : Nat → Except Unit (List Order)) (data : Option (List ℚ)) :
    Except PyErr (BacktestEngine × Option BacktestResults) :=
  match data with
  | none => .error .valueError
  | some rows =>
    if rows.isEmpty then .error .valueError
    else
      let s0 := { s with trades := [], portfolio_history := [], orders := [] }
      match runSteps strat s0 0 rows with
      | .error e => .error e
      | .ok s1 =>
        match calcReturns s1.portfolio_history with
        | .error e => .error e
        | .ok hist =>
          let s2 := { s1 with portfolio_history := hist }
          match s2.generate_backtest_results with
          | .error e => .error e
          | .ok res => .ok (s2, res)

theorem profitable_pred_eq (t : TradeRecord) :
    ((decide (t.side = OrderSide.buy) && decide (t.price > 0)) ||
     (decide (t.side = OrderSide.sell) && decide (t.price > 0)))
    = decide (0 < t.price) := by
  cases h : t.side <;> by_cases hp : (0 : ℚ) < t.price <;> simp [h, hp]

theorem profitableCount_eq (trades : List TradeRecord) :
    profitableCount trades = trades.countP (fun t => decide (0 < t.price)) := by
  unfold profitableCount
  rw [List.filter_congr (fun t _ => profitable_pred_eq t)]
  rw [List.countP_eq_length_filter]

/-- C8: the reported win rate is the fraction of trades with positive
recorded price; with only positive-price trades it is one, and with no
trades it is zero. -/
theorem win_rate_positive_price (trades : List TradeRecord) :
    winRate trades
        = (trades.countP (fun t => decide (0 < t.price)) : ℚ) /
            (trades.length : ℚ)
    ∧ (trades ≠ [] → (∀ t ∈ trades, 0 < t.price) → winRate trades = 1)
    ∧ (trades = [] → winRate trades = 0) := by
  refine ⟨?_, ?_, ?_⟩
  · unfold winRate
    rcases trades with _ | ⟨t, ts⟩
    · norm_num
    · rw [if_pos (by simp), profitableCount_eq]
  · intro hne hall
    have hcnt : profitableCount trades = trades.length := by
      unfold profitableCount
      rw [List.filter_congr (fun t _ => profitable_pred_eq t)]
      rw [List.filter_eq_self.mpr (fun t ht => by simpa using hall t ht)]
    have hlen0 : trades.length ≠ 0 := fun h => hne (List.length_eq_zero.mp h)
    have hlen : (trades.length : ℚ) ≠ 0 := Nat.cast_ne_zero.mpr hlen0
    unfold winRate
    rw [if_pos (Nat.pos_of_ne_zero hlen0), hcnt]
    field_simp
  · intro h
    subst h
    rfl

/-- Witness for C8: a one-trade log with positive price has win rate one,
and the empty log has win rate zero. -/
theorem win_rate_positive_price_witness :
    winRate [⟨0, "default", OrderSide.buy, 1, 100, 1, 0, 101, 899⟩] = 1 ∧
    winRate [] = 0 :=
  ⟨(win_rate_positive_price
      [⟨0, "default", OrderSide.buy, 1, 100, 1, 0, 101, 899⟩]).2.1
      (by norm_num)
      (by
        intro t ht
        simp only [List.mem_singleton] at ht
        subst ht
        norm_num),
   (win_rate_positive_price []).2.2 rfl⟩

theorem if_gt_eq_max (a b : ℚ) : (if b > a then b else a) = max a b := by
  split_ifs with h
  · exact (max_eq_right h.le).symm
  · exact (max_eq_left (not_lt.mp h)).symm

/-- C5: an order the risk check rejects is marked REJECTED and execute_order
leaves portfolio cash, the position and the trade log exactly as before. -/
theorem execute_order_rejected_frame (s : BacktestEngine) (o : Order)
    (t : Nat) (cp fp : ℚ) (msg : String) (risk' : RiskManager)
    (hsym : o.symbol = "default") (hcp : s.current_price = some cp)
    (hfp : resolveFillPrice o cp = some fp)
    (hreject : RiskManager.check_order s.risk_manager o s.portfolio
        s.current_price = .ok ((false, msg), risk')) :
    ∃ s' o', s.execute_order o t = .ok (false, s', o') ∧
      s'.portfolio = s.portfolio ∧ s'.portfolio.cash = s.portfolio.cash ∧
      s'.portfolio.pos = s.portfolio.pos ∧ s'.trades = s.trades ∧
      s'.orders = s.orders ∧ o'.status = OrderStatus.rejected := by
  refine ⟨{ s with risk_manager := risk' }, { o with status := .rejected },
    ?_, rfl, rfl, rfl, rfl, rfl, rfl⟩
  rw [hcp] at hreject
  unfold BacktestEngine.execute_order
  rw [if_pos hsym, hcp]
  simp only [hfp, hreject]
  simp

/-- A concrete engine whose portfolio is fully invested relative to the ten
percent position limit: any further buy of ten units at price 100 is
rejected on size grounds. -/
def c5engine : BacktestEngine :=
  { portfolio := { initial_capital := 1000,
                   cash := 1000,
                   pos := emptyPos "default",
                   total_value := 1000,
                   margin_used := 0,
                   margin_available := 1000,
                   leverage := 1 },
    cost_model := {},
    risk_manager := {},
    trades := [],
    portfolio_history := [],
    orders := [],
    current_price := some 100 }

/-- A market buy of ten units of the default symbol. -/
def c5order : Order :=
  { symbol := "default", side := OrderSide.buy,
    order_type := OrderType.market, quantity := 10 }

/-- Witness for C5: the ten-unit buy is rejected (weight 1 exceeds the limit
of one tenth) and the portfolio is untouched. -/
theorem execute_order_rejected_frame_witness :
    (c5order.symbol = "default" ∧ c5engine.current_price = some 100 ∧
     resolveFillPrice c5order 100 = some 100 ∧
     RiskManager.check_order c5engine.risk_manager c5order c5engine.portfolio
         c5engine.current_price
       = .ok ((false, "Position size exceeds limit"), c5engine.risk_manager)) ∧
    (∃ s' o', c5engine.execute_order c5order 0 = .ok (false, s', o') ∧
      s'.portfolio = c5engine.portfolio ∧
      s'.portfolio.cash = c5engine.portfolio.cash ∧
      s'.portfolio.pos = c5engine.portfolio.pos ∧
      s'.trades = c5engine.trades ∧
      s'.orders = c5engine.orders ∧ o'.status = OrderStatus.rejected) :=
  ⟨⟨rfl, rfl, rfl, by norm_num [RiskManager.check_order, c5engine, c5order, emptyPos]⟩,
   execute_order_rejected_frame c5engine c5order 0 100 100
     "Position size exceeds limit" c5engine.risk_manager rfl rfl rfl
     (by norm_num [RiskManager.check_order, c5engine, c5order, emptyPos])⟩

/-- The corrected peak-update contract of check_order, branch by branch: a
rejection on size or margin grounds leaves the risk state untouched, while a
call reaching the drawdown stage (whether it then rejects on drawdown or
approves) updates the peak to the running maximum and recomputes the
drawdown. -/
def checkOrderPeakSpec (rm : RiskManager) (o : Order) (pf : Portfolio)
    (md : Option ℚ) : Prop :=
  ∀ ok msg rm',
    RiskManager.check_order rm o pf md = .ok ((ok, msg), rm') →
    ((msg = "Position size exceeds limit" ∨ msg = "Insufficient margin") →
       rm' = rm) ∧
    ((msg = "Maximum drawdown exceeded" ∨ msg = "Order approved") →
       rm'.peak_value = max rm.peak_value pf.total_value ∧
       rm'.current_drawdown
         = (rm'.peak_value - pf.total_value) / rm'.peak_value)

/-- C7 amended: the peak/drawdown side effect happens on the check_order
calls that pass the size and margin gates, not on every call, and on every
update_risk_metrics call. -/
theorem check_order_peak_update (rm : RiskManager) (o : Order)
    (pf : Portfolio) (md : Option ℚ) :
    checkOrderPeakSpec rm o pf md ∧
    (∀ rm' met, RiskManager.update_risk_metrics rm pf = .ok (rm', met) →
       rm'.peak_value = max rm.peak_value pf.total_value ∧
       rm'.current_drawdown
         = (rm'.peak_value - pf.total_value) / rm'.peak_value) := by
  constructor
  · intro ok msg rm' h
    unfold RiskManager.check_order at h
    dsimp only at h
    split_ifs at h
    all_goals
      first
      | exact Except.noConfusion h
      | (simp only [Except.ok.injEq, Prod.mk.injEq] at h
         obtain ⟨⟨hok, hmsg⟩, hrm⟩ := h
         subst hmsg
         subst hrm
         constructor <;> intro hc <;> simp_all [if_gt_eq_max] <;> linarith)
  · intro rm' met h
    unfold RiskManager.update_risk_metrics at h
    dsimp only at h
    split_ifs at h
    all_goals
      first
      | exact Except.noConfusion h
      | (simp only [Except.ok.injEq, Prod.mk.injEq] at h
         obtain ⟨hrm, hmet⟩ := h
         subst hrm
         constructor <;> simp_all [if_gt_eq_max] <;> linarith)

/-- C7 as stated is false: a check_order call rejected on position-size
grounds returns with the risk state unchanged, even though the observed
total_value 2000 exceeds the stored peak 1000, so the peak is not updated to
the running maximum on that call. -/
theorem check_order_peak_not_updated_cex :
    RiskManager.check_order ⟨1/10, 1/50, 1/5, 1/20, 1000, 0⟩
        ⟨"default", .buy, .market, 10, none, none, none, none, .pending,
          0, 0, 0, 0⟩
        ⟨2000, 2000, emptyPos "default", 2000, 0, 2000, 1⟩ (some 100)
      = .ok ((false, "Position size exceeds limit"),
             ⟨1/10, 1/50, 1/5, 1/20, 1000, 0⟩)
    ∧ (1000 : ℚ) ≠ max 1000 2000 := by
  constructor
  · norm_num [RiskManager.check_order, emptyPos]
  · norm_num

/-- Witness for the amended C7: an approved check updates the peak to the
running maximum. -/
theorem check_order_peak_update_witness :
    RiskManager.check_order ({} : RiskManager)
        ⟨"default", .buy, .market, 1, none, none, none, none, .pending,
          0, 0, 0, 0⟩
        ⟨1000, 1000, emptyPos "default", 1000, 0, 1000, 1⟩ (some 100)
      = .ok ((true, "Order approved"), ⟨1/10, 1/50, 1/5, 1/20, 1000, 0⟩) ∧
    ((⟨1/10, 1/50, 1/5, 1/20, 1000, 0⟩ : RiskManager).peak_value
        = max ({} : RiskManager).peak_value
            (⟨1000, 1000, emptyPos "default", 1000, 0, 1000, 1⟩ :
              Portfolio).total_value ∧
     (⟨1/10, 1/50, 1/5, 1/20, 1000, 0⟩ : RiskManager).current_drawdown
        = ((⟨1/10, 1/50, 1/5, 1/20, 1000, 0⟩ : RiskManager).peak_value
            - (⟨1000, 1000, emptyPos "default", 1000, 0, 1000, 1⟩ :
                Portfolio).total_value)
          / (⟨1/10, 1/50, 1/5, 1/20, 1000, 0⟩ : RiskManager).peak_value) :=
  ⟨by norm_num [RiskManager.check_order, emptyPos],
   ((check_order_peak_update {}
      ⟨"default", .buy, .market, 1, none, none, none, none, .pending,
        0, 0, 0, 0⟩
      ⟨1000, 1000, emptyPos "default", 1000, 0, 1000, 1⟩ (some 100)).1
     true "Order approved" ⟨1/10, 1/50, 1/5, 1/20, 1000, 0⟩
     (by norm_num [RiskManager.check_order, emptyPos])).2 (Or.inr rfl)⟩

/-- The actual division-guard inventory of the core (amended C6): the
average-price division of update_position is guarded, and the cost model
defaults a missing average volume and then never raises; but a present zero
average volume, a zero portfolio total_value under the position-weight
division, and a zero updated peak under the drawdown division each raise
ZeroDivisionError. -/
def divisionGuardSpec : Prop :=
  (∀ (cm : TradingCostModel) (o : Order),
     cm.calculate_costs o none
       = .ok (max (o.quantity * o.filled_price * cm.commission_rate)
                cm.commission_min,
              o.filled_price * cm.slippage_rate
                + o.quantity / 1000000 * cm.impact_coeff * o.filled_price)) ∧
  (∀ (cm : TradingCostModel) (o : Order),
     cm.calculate_costs o (some 0) = .error .zeroDivisionError) ∧
  (∀ (rm : RiskManager) (o : Order) (pf : Portfolio) (md : Option ℚ),
     pf.total_value = 0 →
     RiskManager.check_order rm o pf md = .error .zeroDivisionError) ∧
  (∀ (rm : RiskManager) (pf : Portfolio),
     rm.peak_value = 0 → pf.total_value ≤ 0 →
     RiskManager.update_risk_metrics rm pf = .error .zeroDivisionError) ∧
  (∀ (p : Position) (tq tp cp : ℚ),
     p.quantity ≠ 0 → signQ tq = signQ p.quantity → p.quantity + tq = 0 →
     (p.update_position tq tp cp).avg_price = 0)

/-- C6 amended: the division-guard inventory holds as catalogued by
divisionGuardSpec. -/
theorem division_guards : divisionGuardSpec := by
  refine ⟨?_, ?_, ?_, ?_, ?_⟩
  · intro cm o
    unfold TradingCostModel.calculate_costs
    norm_num
  · intro cm o
    unfold TradingCostModel.calculate_costs
    norm_num
  · intro rm o pf md h
    unfold RiskManager.check_order
    rw [if_pos h]
  · intro rm pf h1 h2
    unfold RiskManager.update_risk_metrics
    rw [h1, if_neg (not_lt.mpr h2), if_pos rfl]
  · intro p tq tp cp h0 hs hsum
    rw [update_position_avg]
    unfold refStep
    rw [if_neg h0, if_pos hs]
    simp [hsum]

/-- C6 as stated is false: the position-weight ratio of check_order is not
guarded, and raises ZeroDivisionError whenever portfolio total_value is
zero, as on this concrete order. -/
theorem check_order_division_cex :
    RiskManager.check_order ({} : RiskManager)
        ⟨"default", .buy, .market, 1, none, none, none, none, .pending,
          0, 0, 0, 0⟩
        ⟨1000, 1000, emptyPos "default", 0, 0, 0, 1⟩ (some 100)
      = .error .zeroDivisionError := by
  norm_num [RiskManager.check_order, emptyPos]

/-- Witness for the amended C6 at the drawdown division: a zero peak with
nonpositive total_value raises. -/
theorem division_guards_witness :
    (({} : RiskManager).peak_value = 0 ∧
     (⟨1000, 1000, emptyPos "default", 0, 0, 0, 1⟩ :
        Portfolio).total_value ≤ 0) ∧
    RiskManager.update_risk_metrics ({} : RiskManager)
        ⟨1000, 1000, emptyPos "default", 0, 0, 0, 1⟩
      = .error .zeroDivisionError :=
  ⟨⟨rfl, by norm_num⟩,
   division_guards.2.2.2.1 {} ⟨1000, 1000, emptyPos "default", 0, 0, 0, 1⟩
     rfl (by norm_num)⟩

theorem execute_order_history (s : BacktestEngine) (o : Order) (t : Nat) :
    ∀ f s' o', s.execute_order o t = .ok (f, s', o') →
    s'.portfolio_history = s.portfolio_history := by
  intro f s' o' h
  unfold BacktestEngine.execute_order at h
  repeat' split at h
  all_goals
    first
    | exact Except.noConfusion h
    | (simp only [Except.ok.injEq, Prod.mk.injEq] at h
       try obtain ⟨hf, hs, ho⟩ := h
       first
       | rw [← hs]
       | rfl)

theorem processOrders_history (t : Nat) : ∀ (os : List Order)
    (s : BacktestEngine),
    ((processOrders t s os).1).portfolio_history = s.portfolio_history := by
  intro os
  induction os with
  | nil => intro s; rfl
  | cons o os ih =>
    intro s
    unfold processOrders
    cases hE : s.execute_order o t with
    | error e => rfl
    | ok res =>
      obtain ⟨f, s', o'⟩ := res
      have hh := execute_order_history s o t f s' o' hE
      cases f
      · simpa [ih] using hh
      · simp only []
        rw [ih]
        simpa using hh

theorem calculate_costs_lit (cm : TradingCostModel) (o : Order) :
    cm.calculate_costs o (some 1000000)
      = .ok (max (o.quantity * o.filled_price * cm.commission_rate)
               cm.commission_min,
             o.filled_price * cm.slippage_rate
               + o.quantity / 1000000 * cm.impact_coeff * o.filled_price) := by
  unfold TradingCostModel.calculate_costs
  norm_num

theorem check_order_safe (rm : RiskManager) (o : Order) (pf : Portfolio)
    (md : Option ℚ) (h1 : pf.total_value ≠ 0) (h2 : rm.peak_value ≠ 0) :
    ∃ ok msg rm', RiskManager.check_order rm o pf md = .ok ((ok, msg), rm')
      ∧ rm'.peak_value ≠ 0 := by
  unfold RiskManager.check_order
  dsimp only
  rw [if_neg h1]
  split_ifs
  all_goals
    first
    | exact ⟨_, _, _, rfl, h2⟩
    | exact ⟨_, _, _, rfl, h1⟩

theorem check_order_approved_facts (rm : RiskManager) (o : Order)
    (pf : Portfolio) (md : Option ℚ) (msg : String) (rm' : RiskManager)
    (h : RiskManager.check_order rm o pf md = .ok ((true, msg), rm')) :
    pf.total_value ≠ 0 ∧ rm'.peak_value ≠ 0 := by
  unfold RiskManager.check_order at h
  dsimp only at h
  split_ifs at h
  all_goals
    first
    | exact Except.noConfusion h
    | (simp only [Except.ok.injEq, Prod.mk.injEq] at h
       first
       | exact absurd h.1.1 Bool.false_ne_true
       | (obtain ⟨⟨hok, hmsg⟩, hrm⟩ := h
          subst hrm
          refine ⟨‹¬pf.total_value = 0›, ?_⟩
          first
          | exact ‹¬pf.total_value = 0›
          | exact ‹¬rm.peak_value = 0›))

theorem execute_order_safe (s : BacktestEngine) (o : Order) (t : Nat)
    (h1 : s.portfolio.total_value ≠ 0)
    (h2 : s.risk_manager.peak_value ≠ 0) :
    ∃ f s' o', s.execute_order o t = .ok (f, s', o')
      ∧ s'.portfolio.total_value = s.portfolio.total_value
      ∧ s'.risk_manager.peak_value ≠ 0 := by
  unfold BacktestEngine.execute_order
  by_cases hsym : o.symbol = "default"
  · rw [if_pos hsym]
    cases hcp : s.current_price with
    | none => exact ⟨false, s, o, rfl, rfl, h2⟩
    | some cp =>
      dsimp only
      cases hfp : resolveFillPrice o cp with
      | none => exact ⟨false, s, o, rfl, rfl, h2⟩
      | some fp =>
        dsimp only
        obtain ⟨ok, msg, rm', hch, hpk⟩ :=
          check_order_safe s.risk_manager o s.portfolio (some cp) h1 h2
        cases ok with
        | false =>
          rw [hch]
          dsimp only
          rw [if_pos rfl]
          exact ⟨_, _, _, rfl, rfl, hpk⟩
        | true =>
          rw [hch]
          dsimp only
          rw [if_neg (by decide : ¬(true = false))]
          rw [calculate_costs_lit]
          dsimp only
          exact ⟨_, _, _, rfl, rfl, hpk⟩
  · rw [if_neg hsym]
    exact ⟨false, s, o, rfl, rfl, h2⟩

theorem execute_order_ok_frame (s : BacktestEngine) (o : Order) (t : Nat)
    (f : Bool) (s' : BacktestEngine) (o' : Order)
    (h : s.execute_order o t = .ok (f, s', o')) :
    (f = false → s'.portfolio = s.portfolio ∧ s'.trades = s.trades ∧
       s'.orders = s.orders) ∧
    (f = true → s'.portfolio.total_value = s.portfolio.total_value ∧
       s.portfolio.total_value ≠ 0 ∧ s'.risk_manager.peak_value ≠ 0) := by
  unfold BacktestEngine.execute_order at h
  by_cases hsym : o.symbol = "default"
  · rw [if_pos hsym] at h
    rcases hcp : s.current_price with _ | cp
    · rw [hcp] at h
      dsimp only at h
      simp only [Except.ok.injEq, Prod.mk.injEq] at h
      obtain ⟨hf, hs, ho⟩ := h
      subst hf
      subst hs
      exact ⟨fun _ => ⟨rfl, rfl, rfl⟩, fun hb => absurd hb (by decide)⟩
    · rw [hcp] at h
      dsimp only at h
      rcases hfp : resolveFillPrice o cp with _ | fp
      · rw [hfp] at h
        dsimp only at h
        simp only [Except.ok.injEq, Prod.mk.injEq] at h
        obtain ⟨hf, hs, ho⟩ := h
        subst hf
        subst hs
        exact ⟨fun _ => ⟨rfl, rfl, rfl⟩, fun hb => absurd hb (by decide)⟩
      · rw [hfp] at h
        dsimp only at h
        rcases hch : RiskManager.check_order s.risk_manager o s.portfolio
            (some cp) with e | ⟨⟨approved, msg⟩, rm'⟩
        · rw [hch] at h
          dsimp only at h
          exact Except.noConfusion h
        · rw [hch] at h
          dsimp only at h
          cases approved with
          | false =>
            rw [if_pos rfl] at h
            simp only [Except.ok.injEq, Prod.mk.injEq] at h
            obtain ⟨hf, hs, ho⟩ := h
            subst hf
            subst hs
            exact ⟨fun _ => ⟨rfl, rfl, rfl⟩, fun hb => absurd hb (by decide)⟩
          | true =>
            rw [if_neg (by decide : ¬(true = false))] at h
            rw [calculate_costs_lit] at h
            dsimp only at h
            simp only [Except.ok.injEq, Prod.mk.injEq] at h
            obtain ⟨hf, hs, ho⟩ := h
            subst hf
            subst hs
            have hfacts := check_order_approved_facts s.risk_manager o
              s.portfolio (some cp) msg rm' hch
            exact ⟨fun hb => absurd hb (by decide),
                   fun _ => ⟨rfl, hfacts.1, hfacts.2⟩⟩
  · rw [if_neg hsym] at h
    simp only [Except.ok.injEq, Prod.mk.injEq] at h
    obtain ⟨hf, hs, ho⟩ := h
    subst hf
    subst hs
    exact ⟨fun _ => ⟨rfl, rfl, rfl⟩, fun hb => absurd hb (by decide)⟩

theorem processOrders_safe (t : Nat) : ∀ (os : List Order)
    (s : BacktestEngine),
    s.portfolio.total_value ≠ 0 → s.risk_manager.peak_value ≠ 0 →
    (processOrders t s os).2 = false := by
  intro os
  induction os with
  | nil => intro s _ _; rfl
  | cons o os ih =>
    intro s h1 h2
    obtain ⟨f, s', o', hE, ht, hp⟩ := execute_order_safe s o t h1 h2
    unfold processOrders
    rw [hE]
    dsimp only
    cases f with
    | false =>
      rw [if_neg (by decide : ¬(false = true))]
      exact ih s' (by rw [ht]; exact h1) hp
    | true =>
      rw [if_pos rfl]
      exact ih { s' with orders := s'.orders ++ [o'] }
        (by
          show s'.portfolio.total_value ≠ 0
          rw [ht]
          exact h1)
        hp

theorem processOrders_error_frame (t : Nat) : ∀ (os : List Order)
    (s s1 : BacktestEngine), processOrders t s os = (s1, true) →
    s1.portfolio = s.portfolio ∧ s1.trades = s.trades ∧
    s1.orders = s.orders := by
  intro os
  induction os with
  | nil =>
    intro s s1 h
    exact Bool.noConfusion (congrArg Prod.snd h)
  | cons o os ih =>
    intro s s1 h
    unfold processOrders at h
    rcases hE : s.execute_order o t with e | ⟨f, s', o'⟩
    · rw [hE] at h
      dsimp only at h
      simp only [Prod.mk.injEq] at h
      rw [← h.1]
      exact ⟨rfl, rfl, rfl⟩
    · rw [hE] at h
      dsimp only at h
      have hframe := execute_order_ok_frame s o t f s' o' hE
      cases f with
      | false =>
        rw [if_neg (by decide : ¬(false = true))] at h
        obtain ⟨hp1, hp2, hp3⟩ := ih s' s1 h
        obtain ⟨hq1, hq2, hq3⟩ := hframe.1 rfl
        exact ⟨hp1.trans hq1, hp2.trans hq2, hp3.trans hq3⟩
      | true =>
        rw [if_pos rfl] at h
        exfalso
        obtain ⟨ht, ht0, hpk⟩ := hframe.2 rfl
        have hsafe := processOrders_safe t os
          { s' with orders := s'.orders ++ [o'] }
          (by
            show s'.portfolio.total_value ≠ 0
            rw [ht]
            exact ht0)
          hpk
        rw [h] at hsafe
        exact Bool.noConfusion hsafe

/-- C4 amended: a per-step exception (raised by signal generation or caught
while processing the step's orders) is caught and the loop continues with
the next row; no orders from the failing step are applied (the portfolio and
the trade and order logs are exactly as before the step), and the failing
step performs no portfolio revaluation and appends no history record. -/
theorem per_step_error_failsoft (strat : Nat → Except Unit (List Order))
    (s : BacktestEngine) (n : Nat) (p : ℚ) :
    (strat n = .error () →
       runStep strat s n p = .ok { s with current_price := some p }) ∧
    (∀ sigs s1, strat n = .ok sigs →
       processOrders n { s with current_price := some p } sigs = (s1, true) →
       runStep strat s n p = .ok s1 ∧
       s1.portfolio_history = s.portfolio_history ∧
       s1.portfolio = s.portfolio ∧
       s1.trades = s.trades ∧
       s1.orders = s.orders) := by
  constructor
  · intro h
    unfold runStep runStepPriced
    rw [h]
  · intro sigs s1 hs hp
    refine ⟨?_, ?_, ?_, ?_, ?_⟩
    · unfold runStep runStepPriced
      rw [hs]
      dsimp only
      rw [hp]
    · have hH := processOrders_history n sigs { s with current_price := some p }
      rw [hp] at hH
      exact hH
    · exact (processOrders_error_frame n sigs
        { s with current_price := some p } s1 hp).1
    · exact (processOrders_error_frame n sigs
        { s with current_price := some p } s1 hp).2.1
    · exact (processOrders_error_frame n sigs
        { s with current_price := some p } s1 hp).2.2

/-- A strategy that raises on the second step and is otherwise silent. -/
def c4strat : Nat → Except Unit (List Order) :=
  fun n => if n = 1 then .error () else .ok []

/-- A strategy that emits one first-step market buy, which on a fresh engine
makes check_order raise mid-loop. -/
def c4pstrat : Nat → Except Unit (List Order) :=
  fun _ =>
    .ok [⟨"default", .buy, .market, 1, none, none, none, none, .pending,
          0, 0, 0, 0⟩]

/-- Witness for the amended C4, exercising both branches: a signal-generation
error leaves the engine exactly as it was apart from the stored price, and an
order-processing error (the first-step risk check of a fresh engine raising
ZeroDivisionError) applies no orders and leaves portfolio, trades and orders
untouched, with no history record appended. -/
theorem per_step_error_failsoft_witness :
    (c4strat 1 = .error () ∧
     runStep c4strat (BacktestEngine.init 1000 0 0 1) 1 100
       = .ok { BacktestEngine.init 1000 0 0 1 with
                 current_price := some 100 }) ∧
    (c4pstrat 0
       = .ok [⟨"default", .buy, .market, 1, none, none, none, none, .pending,
               0, 0, 0, 0⟩] ∧
     processOrders 0
         { BacktestEngine.init 1000 0 0 1 with current_price := some 100 }
         [⟨"default", .buy, .market, 1, none, none, none, none, .pending,
           0, 0, 0, 0⟩]
       = ({ BacktestEngine.init 1000 0 0 1 with current_price := some 100 },
          true)) ∧
    (runStep c4pstrat (BacktestEngine.init 1000 0 0 1) 0 100
       = .ok { BacktestEngine.init 1000 0 0 1 with
                 current_price := some 100 } ∧
     ({ BacktestEngine.init 1000 0 0 1 with current_price := some 100 } :
         BacktestEngine).portfolio_history
       = (BacktestEngine.init 1000 0 0 1).portfolio_history ∧
     ({ BacktestEngine.init 1000 0 0 1 with current_price := some 100 } :
         BacktestEngine).portfolio
       = (BacktestEngine.init 1000 0 0 1).portfolio ∧
     ({ BacktestEngine.init 1000 0 0 1 with current_price := some 100 } :
         BacktestEngine).trades
       = (BacktestEngine.init 1000 0 0 1).trades ∧
     ({ BacktestEngine.init 1000 0 0 1 with current_price := some 100 } :
         BacktestEngine).orders
       = (BacktestEngine.init 1000 0 0 1).orders) := by
  have hPO : processOrders 0
      { BacktestEngine.init 1000 0 0 1 with current_price := some 100 }
      [⟨"default", .buy, .market, 1, none, none, none, none, .pending,
        0, 0, 0, 0⟩]
    = ({ BacktestEngine.init 1000 0 0 1 with current_price := some 100 },
       true) := by
    norm_num [processOrders, BacktestEngine.execute_order, resolveFillPrice,
      RiskManager.check_order, BacktestEngine.init, emptyPos]
  refine ⟨⟨rfl, (per_step_error_failsoft c4strat
      (BacktestEngine.init 1000 0 0 1) 1 100).1 rfl⟩, ⟨rfl, hPO⟩, ?_⟩
  exact (per_step_error_failsoft c4pstrat
    (BacktestEngine.init 1000 0 0 1) 0 100).2
    [⟨"default", .buy, .market, 1, none, none, none, none, .pending,
      0, 0, 0, 0⟩]
    { BacktestEngine.init 1000 0 0 1 with current_price := some 100 }
    rfl hPO

/-- C4 as stated is false: over two rows whose second step raises, the run
records one history record, not two, because the except handler's continue
skips revaluation and the history append for the failing step. -/
theorem per_step_error_skips_history_cex :
    ((BacktestEngine.init 1000 0 0 1).run_backtest c4strat
        (some [100, 100])).toOption.map
      (fun r => r.1.portfolio_history.length) = some 1 := by
  norm_num [BacktestEngine.run_backtest, BacktestEngine.init, runSteps,
    runStep, runStepPriced, c4strat, processOrders, Portfolio.update_portfolio,
    portfolioAggregate, RiskManager.update_risk_metrics, emptyPos, calcReturns,
    BacktestEngine.generate_backtest_results, winRate, runningPeaksAux,
    drawdownList, listMin, Except.toOption]

/-- C3 amended: run_backtest clears the trade, history and order logs and
overwrites the stored price before reading it, so its outcome is a function
of the portfolio, cost model and risk-manager state alone (with the strategy
and data); two engines agreeing on those three components produce identical
outcomes. -/
theorem run_backtest_state_dependence (s₁ s₂ : BacktestEngine)
    (strat : Nat → Except Unit (List Order)) (data : Option (List ℚ))
    (hp : s₁.portfolio = s₂.portfolio) (hc : s₁.cost_model = s₂.cost_model)
    (hr : s₁.risk_manager = s₂.risk_manager) :
    s₁.run_backtest strat data = s₂.run_backtest strat data := by
  unfold BacktestEngine.run_backtest
  cases data with
  | none => rfl
  | some rows =>
    cases rows with
    | nil => rfl
    | cons p ps =>
      have key : runSteps strat
            { s₁ with trades := [], portfolio_history := [], orders := [] }
            0 (p :: ps)
          = runSteps strat
            { s₂ with trades := [], portfolio_history := [], orders := [] }
            0 (p :: ps) := by
        unfold runSteps
        have hstep : runStep strat
              { s₁ with trades := [], portfolio_history := [], orders := [] }
              0 p
            = runStep strat
              { s₂ with trades := [], portfolio_history := [], orders := [] }
              0 p := by
          unfold runStep
          congr 1
          cases s₁
          cases s₂
          simp_all
        rw [hstep]
      dsimp only
      rw [key]

/-- A fresh engine, and the same engine with a stale trade log and stored
price, as they would be left behind by an earlier run. -/
def c3aEngine : BacktestEngine := BacktestEngine.init 1000 0 0 1

/-- The fresh engine with a stale trade log and a stale stored price. -/
def c3bEngine : BacktestEngine :=
  { c3aEngine with
      trades := [⟨0, "default", OrderSide.buy, 1, 100, 1, 0, 101, 899⟩],
      current_price := some 50 }

/-- Witness for the amended C3: stale logs and a stale stored price do not
change the outcome of a run. -/
theorem run_backtest_state_dependence_witness :
    (c3aEngine.portfolio = c3bEngine.portfolio ∧
     c3aEngine.cost_model = c3bEngine.cost_model ∧
     c3aEngine.risk_manager = c3bEngine.risk_manager) ∧
    c3aEngine.run_backtest (fun _ => .ok []) (some [100])
      = c3bEngine.run_backtest (fun _ => .ok []) (some [100]) :=
  ⟨⟨rfl, rfl, rfl⟩,
   run_backtest_state_dependence c3aEngine c3bEngine (fun _ => .ok [])
     (some [100]) rfl rfl rfl⟩

/-- A strategy that buys one unit on the second step. -/
def c3strat : Nat → Except Unit (List Order) :=
  fun n =>
    if n = 1 then
      .ok [⟨"default", .buy, .market, 1, none, none, none, none, .pending,
            0, 0, 0, 0⟩]
    else .ok []

/-- First run of the buy-once strategy on a fresh engine with capital
100000, commission rate 1/1000 and zero slippage rate. -/
def c3run1 : Except PyErr (BacktestEngine × Option BacktestResults) :=
  (BacktestEngine.init 100000 (1/1000) 0 1).run_backtest c3strat
    (some [100, 100])

/-- Second run of the same strategy and data on the engine state the first
run leaves behind. -/
def c3run2 : Except PyErr (BacktestEngine × Option BacktestResults) :=
  match c3run1 with
  | .ok (s, _) => s.run_backtest c3strat (some [100, 100])
  | .error e => .error e

/-- C3 as stated is false: both runs complete, but the second run's bundle
reports a different final value (the first run's trade debited cash and
opened a position that run_backtest does not reset). -/
theorem rerun_not_identical_cex :
    c3run1.toOption.map (fun r => r.2.map (fun b => b.final_value))
        = some (some (9999899999/100000)) ∧
    c3run2.toOption.map (fun r => r.2.map (fun b => b.final_value))
        = some (some (9999799998/100000)) ∧
    ((9999899999 : ℚ)/100000) ≠ 9999799998/100000 := by
  refine ⟨?_, ?_, by norm_num⟩
  · norm_num [c3run1, c3strat, BacktestEngine.run_backtest,
      BacktestEngine.init, runSteps, runStep, runStepPriced, processOrders,
      BacktestEngine.execute_order, resolveFillPrice, RiskManager.check_order,
      TradingCostModel.calculate_costs, Position.update_position, signQ,
      Portfolio.update_portfolio, portfolioAggregate,
      RiskManager.update_risk_metrics, emptyPos, calcReturns, calcReturnsAux,
      BacktestEngine.generate_backtest_results, winRate, profitableCount,
      runningPeaksAux, drawdownList, listMin, Except.toOption]
  · norm_num [c3run2, c3run1, c3strat, BacktestEngine.run_backtest,
      BacktestEngine.init, runSteps, runStep, runStepPriced, processOrders,
      BacktestEngine.execute_order, resolveFillPrice, RiskManager.check_order,
      TradingCostModel.calculate_costs, Position.update_position, signQ,
      Portfolio.update_portfolio, portfolioAggregate,
      RiskManager.update_risk_metrics, emptyPos, calcReturns, calcReturnsAux,
      BacktestEngine.generate_backtest_results, winRate, profitableCount,
      runningPeaksAux, drawdownList, listMin, Except.toOption]

/-- An order reaches the risk check of execute_order exactly when its symbol
is priced and its fill price resolves (market and stop kinds always resolve;
limit orders only when the limit condition holds). -/
def reachesRisk (o : Order) (cp : Option ℚ) : Prop :=
  o.symbol = "default" ∧ ∃ p fp, cp = some p ∧ resolveFillPrice o p = some fp

theorem check_order_zero_total (rm : RiskManager) (o : Order) (pf : Portfolio)
    (md : Option ℚ) (h : pf.total_value = 0) :
    RiskManager.check_order rm o pf md = .error .zeroDivisionError := by
  unfold RiskManager.check_order
  rw [if_pos h]

theorem execute_order_total_zero (s : BacktestEngine) (o : Order) (t : Nat)
    (h0 : s.portfolio.total_value = 0) :
    (reachesRisk o s.current_price →
       s.execute_order o t = .error .zeroDivisionError) ∧
    (¬ reachesRisk o s.current_price →
       s.execute_order o t = .ok (false, s, o)) := by
  constructor
  · rintro ⟨hsym, p, fp, hcp, hfp⟩
    unfold BacktestEngine.execute_order
    rw [if_pos hsym, hcp]
    dsimp only
    simp only [hfp]
    rw [check_order_zero_total s.risk_manager o s.portfolio (some p) h0]
  · intro hnr
    unfold BacktestEngine.execute_order
    by_cases hsym : o.symbol = "default"
    · rw [if_pos hsym]
      cases hcp : s.current_price with
      | none => rfl
      | some p =>
        cases hfp : resolveFillPrice o p with
        | none => simp only [hfp]
        | some fp => exact absurd ⟨hsym, p, fp, hcp, hfp⟩ hnr
    · rw [if_neg hsym]

theorem processOrders_total_zero (t : Nat) : ∀ (os : List Order)
    (s : BacktestEngine), s.portfolio.total_value = 0 →
    ((∃ o ∈ os, reachesRisk o s.current_price) →
       processOrders t s os = (s, true)) ∧
    ((∀ o ∈ os, ¬ reachesRisk o s.current_price) →
       processOrders t s os = (s, false)) := by
  intro os
  induction os with
  | nil =>
    intro s _
    exact ⟨fun ⟨o, ho, _⟩ => absurd ho (List.not_mem_nil o), fun _ => rfl⟩
  | cons o os ih =>
    intro s h0
    by_cases hr : reachesRisk o s.current_price
    · have hE := (execute_order_total_zero s o t h0).1 hr
      constructor
      · intro _
        unfold processOrders
        rw [hE]
      · intro hall
        exact absurd hr (hall o (List.mem_cons_self o os))
    · have hE := (execute_order_total_zero s o t h0).2 hr
      have hrec := ih s h0
      constructor
      · rintro ⟨o', ho', hr'⟩
        rcases List.mem_cons.mp ho' with rfl | ho'
        · exact absurd hr' hr
        · unfold processOrders
          rw [hE]
          simp only [Bool.false_eq_true, if_false]
          exact hrec.1 ⟨o', ho', hr'⟩
      · intro hall
        unfold processOrders
        rw [hE]
        simp only [Bool.false_eq_true, if_false]
        exact hrec.2 (fun o' ho' => hall o' (List.mem_cons_of_mem o ho'))

/-- A fresh engine about to process its first row at price p: the stored
price is set, and total_value still carries its initial zero. -/
def firstRowEngine (c cr sr lev p : ℚ) : BacktestEngine :=
  { BacktestEngine.init c cr sr lev with current_price := some p }

/-- The corrected first-row behaviour of C9: on a fresh engine every first
row order that reaches the risk check raises ZeroDivisionError through the
zero total_value; the step fills nothing and leaves cash and the position
untouched, and when at least one emitted order reaches the risk check the
row appends no history record. -/
def firstRowSpec (c cr sr lev : ℚ) (strat : Nat → Except Unit (List Order))
    (sigs : List Order) (p : ℚ) : Prop :=
  (∀ o ∈ sigs, reachesRisk o (some p) →
     (firstRowEngine c cr sr lev p).execute_order o 0
       = .error .zeroDivisionError) ∧
  ∃ s', runStep strat (BacktestEngine.init c cr sr lev) 0 p = .ok s' ∧
    s'.trades = [] ∧ s'.orders = [] ∧
    s'.portfolio.cash = c ∧ s'.portfolio.pos = emptyPos "default" ∧
    ((∃ o ∈ sigs, reachesRisk o (some p)) → s'.portfolio_history = [])

/-- The portfolio of a fresh engine after its first revaluation at any
price: no position, so total value equals cash. -/
def firstRowPortfolio (c lev : ℚ) : Portfolio :=
  { initial_capital := c, cash := c, pos := emptyPos "default",
    total_value := c, margin_used := 0, margin_available := c,
    leverage := lev }

/-- The risk state of a fresh engine after its first metric update: the
peak is the first total value and the drawdown is zero. -/
def firstRowRisk (c : ℚ) : RiskManager :=
  { peak_value := c, current_drawdown := 0 }

/-- C9 amended: proved for every fresh engine with positive capital and
nonzero leverage, every strategy and every first-row price. -/
theorem first_row_risk_check_divzero (c cr sr lev : ℚ)
    (strat : Nat → Except Unit (List Order)) (sigs : List Order) (p : ℚ)
    (hc : 0 < c) (hlev : lev ≠ 0) (hs : strat 0 = .ok sigs) :
    firstRowSpec c cr sr lev strat sigs p := by
  have h0 : (firstRowEngine c cr sr lev p).portfolio.total_value = 0 := rfl
  constructor
  · intro o ho hr
    exact (execute_order_total_zero (firstRowEngine c cr sr lev p) o 0 h0).1 hr
  · by_cases hex : ∃ o ∈ sigs, reachesRisk o (some p)
    · refine ⟨firstRowEngine c cr sr lev p, ?_, rfl, rfl, rfl, rfl,
        fun _ => rfl⟩
      show runStepPriced strat (firstRowEngine c cr sr lev p) 0 = _
      unfold runStepPriced
      rw [hs]
      dsimp only
      rw [(processOrders_total_zero 0 sigs (firstRowEngine c cr sr lev p)
        h0).1 hex]
    · push_neg at hex
      have hpo := (processOrders_total_zero 0 sigs
        (firstRowEngine c cr sr lev p) h0).2 hex
      have hupd : Portfolio.update_portfolio
            (firstRowEngine c cr sr lev p).portfolio (some p)
          = .ok (firstRowPortfolio c lev,
                 ⟨c, c, 0, 0, 0, 0, c⟩) := by
        norm_num [Portfolio.update_portfolio, portfolioAggregate,
          firstRowEngine, firstRowPortfolio, BacktestEngine.init, emptyPos,
          hlev]
      have hrisk : RiskManager.update_risk_metrics
            (firstRowEngine c cr sr lev p).risk_manager
            (firstRowPortfolio c lev)
          = .ok (firstRowRisk c, ⟨c, 0⟩) := by
        norm_num [RiskManager.update_risk_metrics, firstRowEngine,
          firstRowPortfolio, firstRowRisk, BacktestEngine.init, hc, hc.ne']
      refine ⟨{ firstRowEngine c cr sr lev p with
                  portfolio := firstRowPortfolio c lev,
                  risk_manager := firstRowRisk c,
                  portfolio_history := [⟨0, c, c, 0, 0, 0, 0, c, c, 0, 0⟩] },
              ?_, rfl, rfl, rfl, rfl, fun hcontra => ?_⟩
      · show runStepPriced strat (firstRowEngine c cr sr lev p) 0 = _
        unfold runStepPriced
        rw [hs]
        dsimp only
        rw [hpo]
        dsimp only
        rw [show (firstRowEngine c cr sr lev p).current_price = some p
          from rfl]
        rw [hupd]
        dsimp only
        rw [hrisk]
        rfl
      · obtain ⟨o, ho, hro⟩ := hcontra
        exact absurd hro (hex o ho)

/-- A strategy that emits one market buy on every step. -/
def c9wstrat : Nat → Except Unit (List Order) :=
  fun _ =>
    .ok [⟨"default", .buy, .market, 1, none, none, none, none, .pending,
          0, 0, 0, 0⟩]

/-- Witness for the amended C9 at a fresh engine with capital 1000 and a
first-row market buy. -/
theorem first_row_risk_check_divzero_witness :
    ((0 : ℚ) < 1000 ∧ (1 : ℚ) ≠ 0 ∧
     c9wstrat 0 = .ok [⟨"default", .buy, .market, 1, none, none, none, none,
       .pending, 0, 0, 0, 0⟩]) ∧
    firstRowSpec 1000 0 0 1 c9wstrat
      [⟨"default", .buy, .market, 1, none, none, none, none, .pending,
        0, 0, 0, 0⟩] 100 :=
  ⟨⟨by norm_num, by norm_num, rfl⟩,
   first_row_risk_check_divzero 1000 0 0 1 c9wstrat
     [⟨"default", .buy, .market, 1, none, none, none, none, .pending,
       0, 0, 0, 0⟩] 100 (by norm_num) (by norm_num) rfl⟩

/-- A strategy that emits one unsatisfiable limit buy on every step. -/
def c9strat : Nat → Except Unit (List Order) :=
  fun _ =>
    .ok [⟨"default", .buy, .limit, 1, some 95, none, none, none, .pending,
          0, 0, 0, 0⟩]

/-- C9 as stated is false: a first-row limit buy at 95 against a price of
100 never reaches the risk check, so no ZeroDivisionError is raised, and the
first row still appends its history record even though the strategy emitted
an order there. -/
theorem first_row_limit_order_cex :
    ((BacktestEngine.init 1000 0 0 1).run_backtest c9strat
        (some [100])).toOption.map
      (fun r => (r.1.portfolio_history.length, r.1.trades.length,
                 r.1.orders.length))
      = some (1, 0, 0) := by
  norm_num [c9strat, BacktestEngine.run_backtest, BacktestEngine.init,
    runSteps, runStep, runStepPriced, processOrders,
    BacktestEngine.execute_order, resolveFillPrice, Portfolio.update_portfolio,
    portfolioAggregate, RiskManager.update_risk_metrics, emptyPos, calcReturns,
    BacktestEngine.generate_backtest_results, winRate, runningPeaksAux,
    drawdownList, listMin, Except.toOption]

end Backtester
